import Mathlib

/-!
Verification of the `Domain` entity from `nanodesign/data/domain.py`.

A `Domain` is a contiguous run of nucleotide bases within a DNA strand.
This file gives a shallow embedding of the module: Python floats are
modelled as rationals, Python strings as lists of characters, and the
fallible dictionary lookup in the local `rev_complement` helper as an
`Option`-valued computation (a missing key raises `KeyError` in Python,
which we model as `none`).  The external nearest-neighbor energy model
(`energymodel.energy_model`) and the Kelvin-to-Celsius conversion
(`energymodel.convert_temperature_K_to_C`) live outside this module; the
embedding abstracts them as parameters, matching the black-box contract
the module relies on.
-/

/-- A 3D coordinate (a triple of floats, modelled as rationals). -/
abbrev Vec3 := ℚ × ℚ × ℚ

/-- A base reference, external to the module: it exposes a one-letter
nucleotide symbol `seq`, a helix position `p` and 3D `coordinates`. -/
structure DnaBase where
  seq : Char
  p : ℕ
  coordinates : Vec3
deriving DecidableEq

/-- A strand reference, external to the module: supplies a fallback color. -/
structure DnaStrand where
  color : List ℚ
deriving DecidableEq

/-- A helix reference, external to the module: exposes the per-base axis
coordinate table `helix_axis_coords`. -/
structure DnaStructureHelix where
  helix_axis_coords : List Vec3
deriving DecidableEq

/-- The `Domain` record, with the fields assigned by `Domain.__init__`. -/
structure Domain where
  id : ℤ
  helix : DnaStructureHelix
  strand : Option DnaStrand
  base_list : List DnaBase
  _color : Option (List ℚ)
  sequence : List Char
  connected_strand : ℤ
  connected_domain : ℤ
deriving DecidableEq

/-- `Domain.__init__`: stores the references, eagerly derives `sequence`
by concatenating each base's symbol, leaves `_color` unset and initializes
both pairing fields to the unpaired sentinel `-1`. -/
def Domain.init (id : ℤ) (helix : DnaStructureHelix) (strand : Option DnaStrand)
    (bases : List DnaBase) : Domain :=
  { id := id
    helix := helix
    strand := strand
    base_list := bases
    _color := none
    sequence := bases.map DnaBase.seq
    connected_strand := -1
    connected_domain := -1 }

/-- The `color` property getter: explicit `_color` when set, else the
strand's color when a strand is present, else neutral gray. -/
def Domain.color (d : Domain) : List ℚ :=
  match d._color with
  | some c => c
  | none =>
    match d.strand with
    | some s => s.color
    | none => [1/2, 1/2, 1/2]

/-- The `color` property setter: assigns `_color` and nothing else. -/
def Domain.set_color (d : Domain) (newval : Option (List ℚ)) : Domain :=
  { d with _color := newval }

/-- `Domain.get_end_points`: reads the helix coordinate table into a local
(which the source never uses), then returns the `coordinates` of the first
and last base of `base_list`.  Python raises `IndexError` on an empty
list; we model that as `none`. -/
def Domain.get_end_points (d : Domain) : Option (Vec3 × Vec3) :=
  let _base_pos := d.helix.helix_axis_coords
  match d.base_list.head?, d.base_list.getLast? with
  | some base1, some base2 => some (base1.coordinates, base2.coordinates)
  | _, _ => none

/-- The fixed base-pairing dictionary `comp` of the local `rev_complement`
helper; a symbol outside the table is a `KeyError`, modelled as `none`. -/
def comp (c : Char) : Option Char :=
  match c with
  | 'G' => some 'C'
  | 'C' => some 'G'
  | 'A' => some 'T'
  | 'T' => some 'A'
  | 'g' => some 'c'
  | 'c' => some 'g'
  | 'a' => some 't'
  | 't' => some 'a'
  | 'N' => some 'N'
  | 'n' => some 'n'
  | _ => none

/-- Complement each character in order through `comp`, failing on the
first symbol outside the pairing table. -/
def compMap : List Char → Option (List Char)
  | [] => some []
  | c :: cs => do
    let c' ← comp c
    let cs' ← compMap cs
    pure (c' :: cs')

/-- The local `rev_complement` helper: the loop walks the input backwards
(index `len(seq) - i - 1`) and appends the complement of each symbol, so
the result is the complement of the reversed sequence. -/
def rev_complement (s : List Char) : Option (List Char) :=
  compMap s.reverse

/-- The black-box contract of the external nearest-neighbor energy model:
a stacking-energy function returning a four-element result, and a
melting-temperature function on the enthalpy/entropy pair. -/
structure EnergyModel where
  stack_energy : List Char → List Char → ℚ × ℚ × ℚ × ℚ
  melting_temperature : ℚ → ℚ → ℚ

/-- `Domain.melting_temperature`, parameterized by the external energy
model `em` and the external Kelvin-to-Celsius conversion `conv`:
sentinel `-500.0` when unpaired, sentinel `-501.0` when the sequence
contains an ambiguous base, otherwise the Celsius conversion of the
melting temperature computed from the third and fourth components of the
stacking energy of the sequence and its reverse complement. -/
def Domain.melting_temperature (d : Domain) (em : EnergyModel) (conv : ℚ → ℚ) :
    Option ℚ :=
  if d.connected_domain = -1 then
    some (-500)
  else if 'N' ∈ d.sequence ∨ 'n' ∈ d.sequence then
    some (-501)
  else
    match rev_complement d.sequence with
    | none => none
    | some rc =>
      let r := em.stack_energy d.sequence rc
      some (conv (em.melting_temperature r.2.2.1 r.2.2.2))

/-- Follows the claim's words for `get_end_points` (not the source): the
endpoint coordinates read from the owning helix's per-base axis
coordinate table, indexed by each end base's position. -/
def Domain.get_end_points_from_helix_table (d : Domain) : Option (Vec3 × Vec3) :=
  match d.base_list.head?, d.base_list.getLast? with
  | some base1, some base2 =>
    match d.helix.helix_axis_coords[base1.p]?, d.helix.helix_axis_coords[base2.p]? with
    | some c1, some c2 => some (c1, c2)
    | _, _ => none
  | _, _ => none

/-! ## Helper definitions and lemmas -/

/-- The nucleotide alphabet of the pairing table, both cases. -/
def dnaAlphabet : List Char := ['A', 'T', 'G', 'C', 'N', 'a', 't', 'g', 'c', 'n']

/-- The total Watson-Crick complement on the alphabet (identity elsewhere),
matching the pairing table `comp` entry by entry. -/
def complementChar (c : Char) : Char :=
  match c with
  | 'G' => 'C'
  | 'C' => 'G'
  | 'A' => 'T'
  | 'T' => 'A'
  | 'g' => 'c'
  | 'c' => 'g'
  | 'a' => 't'
  | 't' => 'a'
  | _ => c

lemma comp_eq_some {c : Char} (h : c ∈ dnaAlphabet) :
    comp c = some (complementChar c) := by
  simp only [dnaAlphabet, List.mem_cons, List.not_mem_nil, or_false] at h
  rcases h with rfl | rfl | rfl | rfl | rfl | rfl | rfl | rfl | rfl | rfl <;> rfl

lemma complementChar_mem {c : Char} (h : c ∈ dnaAlphabet) :
    complementChar c ∈ dnaAlphabet := by
  simp only [dnaAlphabet, List.mem_cons, List.not_mem_nil, or_false] at h
  rcases h with rfl | rfl | rfl | rfl | rfl | rfl | rfl | rfl | rfl | rfl <;> decide

lemma complementChar_invol {c : Char} (h : c ∈ dnaAlphabet) :
    complementChar (complementChar c) = c := by
  simp only [dnaAlphabet, List.mem_cons, List.not_mem_nil, or_false] at h
  rcases h with rfl | rfl | rfl | rfl | rfl | rfl | rfl | rfl | rfl | rfl <;> rfl

lemma compMap_eq_map {l : List Char} (h : ∀ c ∈ l, c ∈ dnaAlphabet) :
    compMap l = some (l.map complementChar) := by
  induction l with
  | nil => rfl
  | cons c cs ih =>
    have hc : c ∈ dnaAlphabet := h c (List.mem_cons_self c cs)
    have hcs : ∀ x ∈ cs, x ∈ dnaAlphabet := fun x hx => h x (List.mem_cons_of_mem _ hx)
    simp [compMap, comp_eq_some hc, ih hcs]

lemma rev_complement_eq_map {s : List Char} (h : ∀ c ∈ s, c ∈ dnaAlphabet) :
    rev_complement s = some (s.reverse.map complementChar) := by
  unfold rev_complement
  exact compMap_eq_map fun c hc => h c (List.mem_reverse.mp hc)

/-! ## Example inputs used by witnesses and counterexamples -/

def exHelix : DnaStructureHelix := ⟨[]⟩

def exStrand : DnaStrand := ⟨[1, 0, 0]⟩

def exBaseA : DnaBase := ⟨'A', 0, (1, 2, 3)⟩

def exBaseT : DnaBase := ⟨'T', 1, (4, 5, 6)⟩

def exBaseG : DnaBase := ⟨'G', 2, (2, 2, 2)⟩

def exBaseC : DnaBase := ⟨'C', 3, (3, 3, 3)⟩

def exBaseN : DnaBase := ⟨'N', 4, (7, 8, 9)⟩

/-- An energy model instance with distinguishable outputs, standing in for
the external black box in witnesses. -/
def exEnergyModel : EnergyModel :=
  ⟨fun s t => ((s.length : ℚ), (t.length : ℚ), 3, 4), fun dH dS => dH * 10 + dS⟩

/-- An unpaired domain (fresh from the constructor) whose sequence even
contains an ambiguous base. -/
def exUnpairedN : Domain := Domain.init 0 exHelix none [exBaseN]

/-- A paired domain whose sequence contains the ambiguous base `N`. -/
def exPairedN : Domain :=
  { Domain.init 3 exHelix none [exBaseA, exBaseT, exBaseN] with connected_domain := 5 }

/-- A paired domain with the clean sequence `ATGC`. -/
def exPairedClean : Domain :=
  { Domain.init 4 exHelix none [exBaseA, exBaseT, exBaseG, exBaseC] with connected_domain := 5 }

/-- A domain whose helix coordinate table disagrees with the coordinates
stored on its bases. -/
def exDomainEnds1 : Domain :=
  Domain.init 1 ⟨[(9, 9, 9), (8, 8, 8)]⟩ none [exBaseA, exBaseT]

/-- Same bases as `exDomainEnds1` but an empty helix coordinate table. -/
def exDomainEnds2 : Domain := Domain.init 2 exHelix none [exBaseA, exBaseT]

/-! ## Claim theorems -/

/-- C1: for every domain with `connected_domain == -1`,
`melting_temperature()` returns exactly `-500.0`, regardless of the
sequence content (ambiguous bases included) and of the energy model: the
unpaired check takes precedence over the ambiguous-base check. -/
theorem melting_temperature_unpaired (d : Domain) (em : EnergyModel) (conv : ℚ → ℚ)
    (h : d.connected_domain = -1) :
    d.melting_temperature em conv = some (-500) := by
  simp [Domain.melting_temperature, h]

theorem melting_temperature_unpaired_witness :
    exUnpairedN.melting_temperature exEnergyModel id = some (-500) :=
  melting_temperature_unpaired exUnpairedN exEnergyModel id rfl

/-- C2: for every domain with `connected_domain != -1` whose sequence
contains `N` or `n`, `melting_temperature()` returns exactly `-501.0`,
whatever the energy model (so the model is never consulted). -/
theorem melting_temperature_ambiguous_base (d : Domain) (em : EnergyModel) (conv : ℚ → ℚ)
    (h1 : d.connected_domain ≠ -1) (h2 : 'N' ∈ d.sequence ∨ 'n' ∈ d.sequence) :
    d.melting_temperature em conv = some (-501) := by
  simp [Domain.melting_temperature, h1, h2]

theorem melting_temperature_ambiguous_base_witness :
    exPairedN.melting_temperature exEnergyModel id = some (-501) :=
  melting_temperature_ambiguous_base exPairedN exEnergyModel id (by decide) (by decide)

/-- C3: for every domain with `connected_domain != -1` and a sequence free
of `N`/`n`, `melting_temperature()` returns exactly the Celsius conversion
of the energy model's melting temperature applied to the third and fourth
components of the stacking energy of the sequence and its reverse
complement — only those two components are consumed. -/
theorem melting_temperature_clean_path (d : Domain) (em : EnergyModel) (conv : ℚ → ℚ)
    (rc : List Char) (h1 : d.connected_domain ≠ -1)
    (h2 : ¬('N' ∈ d.sequence ∨ 'n' ∈ d.sequence))
    (h3 : rev_complement d.sequence = some rc) :
    d.melting_temperature em conv =
      some (conv (em.melting_temperature
        (em.stack_energy d.sequence rc).2.2.1
        (em.stack_energy d.sequence rc).2.2.2)) := by
  simp [Domain.melting_temperature, h1, h2, h3]

theorem melting_temperature_clean_path_witness :
    exPairedClean.melting_temperature exEnergyModel id = some 34 := by
  rw [melting_temperature_clean_path exPairedClean exEnergyModel id
    (['G', 'C', 'A', 'T'] : List Char) (by decide) (by decide) (by decide)]
  norm_num [exEnergyModel]

/-- C7: reading the `color` property yields a three-tier fallback: the
explicitly stored `_color` when set; otherwise the owning strand's color
when a strand is present; otherwise `[0.5, 0.5, 0.5]`. -/
theorem color_three_tier (d : Domain) :
    (∀ c, d._color = some c → d.color = c) ∧
    (d._color = none → ∀ s, d.strand = some s → d.color = s.color) ∧
    (d._color = none → d.strand = none → d.color = [1/2, 1/2, 1/2]) := by
  refine ⟨?_, ?_, ?_⟩ <;> intros <;> simp_all [Domain.color]

def exDomainColor1 : Domain :=
  { Domain.init 7 exHelix (some exStrand) [] with _color := some [0, 1, 0] }

def exDomainColor2 : Domain := Domain.init 8 exHelix (some exStrand) []

def exDomainColor3 : Domain := Domain.init 9 exHelix none []

theorem color_three_tier_witness :
    exDomainColor1.color = [0, 1, 0] ∧
    exDomainColor2.color = [1, 0, 0] ∧
    exDomainColor3.color = [1/2, 1/2, 1/2] :=
  ⟨(color_three_tier exDomainColor1).1 [0, 1, 0] rfl,
   (color_three_tier exDomainColor2).2.1 rfl exStrand rfl,
   (color_three_tier exDomainColor3).2.2 rfl rfl⟩

/-- C9: setting the `color` property only writes the domain's own `_color`
field: every other field, and in particular the strand reference and hence
the strand's color, is unchanged. -/
theorem set_color_frame (d : Domain) (v : Option (List ℚ)) :
    (d.set_color v)._color = v ∧
    (d.set_color v).id = d.id ∧
    (d.set_color v).helix = d.helix ∧
    (d.set_color v).strand = d.strand ∧
    (d.set_color v).base_list = d.base_list ∧
    (d.set_color v).sequence = d.sequence ∧
    (d.set_color v).connected_strand = d.connected_strand ∧
    (d.set_color v).connected_domain = d.connected_domain ∧
    ((d.set_color v).strand).map DnaStrand.color = (d.strand).map DnaStrand.color :=
  ⟨rfl, rfl, rfl, rfl, rfl, rfl, rfl, rfl, rfl⟩

/-- C4 counterexample: on a domain whose helix coordinate table disagrees
with the coordinates stored on the bases, `get_end_points()` does not
return the table entries at the end bases' positions. -/
theorem get_end_points_from_helix_table_cex :
    Domain.get_end_points exDomainEnds1 ≠
      Domain.get_end_points_from_helix_table exDomainEnds1 := by
  decide

/-- C4 (amended): for every domain with non-empty `base_list`,
`get_end_points()` returns the pair of coordinates stored on the first and
last base of `base_list` themselves, in that order; the helix coordinate
table is read into a local but never used. -/
theorem get_end_points_returns_base_coords (d : Domain) (b1 b2 : DnaBase)
    (h1 : d.base_list.head? = some b1) (h2 : d.base_list.getLast? = some b2) :
    d.get_end_points = some (b1.coordinates, b2.coordinates) := by
  simp [Domain.get_end_points, h1, h2]

theorem get_end_points_returns_base_coords_witness :
    exDomainEnds1.get_end_points = some ((1, 2, 3), (4, 5, 6)) :=
  get_end_points_returns_base_coords exDomainEnds1 exBaseA exBaseT rfl rfl

/-- C10: the result of `get_end_points()` depends only on the
`coordinates` of the first and last entries of `base_list`: two domains
agreeing there return equal pairs, however much their helices'
`helix_axis_coords` tables (or any other field) differ. -/
theorem get_end_points_depends_only_on_end_coords (d1 d2 : Domain)
    (h1 : d1.base_list.head?.map DnaBase.coordinates =
      d2.base_list.head?.map DnaBase.coordinates)
    (h2 : d1.base_list.getLast?.map DnaBase.coordinates =
      d2.base_list.getLast?.map DnaBase.coordinates) :
    d1.get_end_points = d2.get_end_points := by
  unfold Domain.get_end_points
  cases hh1 : d1.base_list.head? <;> cases hh2 : d2.base_list.head? <;>
    cases hl1 : d1.base_list.getLast? <;> cases hl2 : d2.base_list.getLast? <;>
    simp_all

theorem get_end_points_depends_only_on_end_coords_witness :
    exDomainEnds1.get_end_points = exDomainEnds2.get_end_points :=
  get_end_points_depends_only_on_end_coords exDomainEnds1 exDomainEnds2 rfl rfl

/-- C5: the reverse complement is an involution on sequences over the
alphabet of the pairing table: applying `rev_complement` twice gives back
the original sequence. -/
theorem rev_complement_involution (s : List Char) (h : ∀ c ∈ s, c ∈ dnaAlphabet) :
    (rev_complement s).bind rev_complement = some s := by
  rw [rev_complement_eq_map h, Option.some_bind]
  have h2 : ∀ c ∈ s.reverse.map complementChar, c ∈ dnaAlphabet := by
    intro c hc
    simp only [List.mem_map, List.mem_reverse] at hc
    obtain ⟨x, hx, rfl⟩ := hc
    exact complementChar_mem (h x hx)
  rw [rev_complement_eq_map h2]
  refine congrArg some ?_
  rw [List.map_reverse, List.map_map]
  have h3 : s.reverse.map (complementChar ∘ complementChar) = s.reverse.map id :=
    List.map_congr_left fun a ha => complementChar_invol (h a (List.mem_reverse.mp ha))
  rw [h3, List.map_id, List.reverse_reverse]

theorem rev_complement_involution_witness :
    (rev_complement ['A', 'T', 'G', 'c', 'n']).bind rev_complement =
      some ['A', 'T', 'G', 'c', 'n'] :=
  rev_complement_involution ['A', 'T', 'G', 'c', 'n'] (by decide)

/-- C6: on sequences over the alphabet, `rev_complement` succeeds with an
output of the same length whose entry at each index `i` is the fixed
case-preserving Watson-Crick complement of the input entry at index
`length - 1 - i`. -/
theorem rev_complement_entries (s t : List Char) (h : ∀ c ∈ s, c ∈ dnaAlphabet)
    (ht : rev_complement s = some t) :
    t.length = s.length ∧
      ∀ i : ℕ, i < s.length →
        t[i]? = (s[s.length - 1 - i]?).map complementChar := by
  rw [rev_complement_eq_map h] at ht
  obtain rfl : s.reverse.map complementChar = t := Option.some.inj ht
  constructor
  · simp
  · intro i hi
    rw [List.getElem?_map, List.getElem?_reverse (by simpa using hi)]

theorem rev_complement_entries_witness :
    (['G', 'C', 'A', 'T'] : List Char).length = (['A', 'T', 'G', 'C'] : List Char).length ∧
      ∀ i : ℕ, i < (['A', 'T', 'G', 'C'] : List Char).length →
        (['G', 'C', 'A', 'T'] : List Char)[i]? =
          ((['A', 'T', 'G', 'C'] :
            List Char)[(['A', 'T', 'G', 'C'] : List Char).length - 1 - i]?).map complementChar :=
  rev_complement_entries ['A', 'T', 'G', 'C'] ['G', 'C', 'A', 'T'] (by decide) (by decide)
